import Mathlib

/-!
Verification of the modeldecoder code generator
(src/model/modeldecoder/generator/code.go).

The development shallowly embeds the generator: Go strings become Lean
`String`s, the in-place `bytes.Buffer` and the `processedTypes` map become
explicit state threaded through the functions, and a Go `(T, error)`
return becomes a pair with an `Option String` error component carrying the
error message.  Recursion over the (possibly cyclic) schema graph is
expressed with an explicit fuel parameter; a dedicated `GenRes.nofuel`
outcome marks fuel exhaustion, and it is proved unreachable for the fuel
bound used by `Generate`, which constitutes the termination argument.

Types declared outside the translated file (the `Parsed` schema container,
`structType`, `structField`, the `nullableType*` qualified-name constants
and the per-kind validation rule bodies) are modelled from the spec; each
such definition carries a doc comment saying so.
-/

namespace generator

/-- Modelled from the spec: the relevant shape of a field type as the
generator observes it through `Type().Underlying()` — a sequence, a
mapping (each exposing the element type only through its qualified string,
the sole use the generator makes of it), a struct, or anything else
(carrying the rendering of Go `%T` on it, used in error messages). -/
inductive Und : Type where
  | uslice (elem : String)
  | umap (elem : String)
  | ustruct
  | uother (tname : String)
deriving DecidableEq, Repr

/-- Modelled from the spec: a field type descriptor, exposing exactly what
`code.go` reads from a `go/types.Type`: its qualified string (`.String()`)
and its underlying shape (`.Underlying()`). -/
structure GoTy : Type where
  str : String
  und : Und
deriving DecidableEq, Repr

/-- Modelled from the spec: one struct field as delivered by the schema
loader — identifier, exported flag, the `json` struct-tag value if
present (`reflect.StructTag.Lookup "json"`), and its type. -/
structure structField : Type where
  name : String
  exported : Bool
  tag : Option String
  typ : GoTy
deriving DecidableEq, Repr

/-- Modelled from the spec: a record type of the schema graph — its name
and its ordered field list (which may contain unexported fields; `code.go`
itself filters on `f.Exported()` and on the anonymous-field name). -/
structure structType : Type where
  name : String
  fields : List structField
deriving DecidableEq, Repr

/-- Modelled from the spec: the parsed schema container built by the
external loader — target package name, the qualified-name → record-type
map, and the pattern-variable pool.  Go maps are represented as
association lists; a `List.Perm` hypothesis stands for the unspecified
iteration order of the map where it matters. -/
structure Parsed : Type where
  pkgName : String
  structTypes : List (String × structType)
  patternVariables : List (String × String)
deriving DecidableEq, Repr

/-- The generator of code.go; the mutable `bytes.Buffer` and the
`processedTypes` set are threaded explicitly as `GenState`. -/
structure CodeGenerator : Type where
  parsed : Parsed
  rootObjs : List structType
deriving DecidableEq, Repr

/-- Mutable state of one generation run: the output buffer accumulated so
far and the set of already processed type names. -/
structure GenState : Type where
  buf : String
  processed : List String
deriving DecidableEq, Repr

/-- Result of the recursive `generate` step: success, an error aborting
the run (with the buffer state at the abort point, as in Go where the
buffer lives on in the receiver), or fuel exhaustion (an artifact of the
embedding, proved unreachable for the bound `stdFuel`). -/
inductive GenRes : Type where
  | done (s : GenState)
  | fail (s : GenState) (e : String)
  | nofuel
deriving DecidableEq, Repr

/-- Byte-wise lexicographic comparison of character lists, the order Go
uses on strings. -/
def lexLeChars : List Char → List Char → Bool
  | [], _ => true
  | _ :: _, [] => false
  | a :: as, b :: bs => if a < b then true else if b < a then false else lexLeChars as bs

/-- Lexicographic `≤` on strings (Go string comparison). -/
def strLe (a b : String) : Bool := lexLeChars a.data b.data

/-- Character-wise lower-casing, modelling `strings.ToLower` on the ASCII
identifiers the generator meets. -/
def lowerName (s : String) : String := ⟨s.data.map Char.toLower⟩

def anonymousField : String := "_"

/-- Translation of `parseTag`: a missing tag gives an empty list, the
override `"-"` gives Go `nil` (also of length zero, which is all any
caller observes), otherwise the tag is split on commas. -/
def parseTag (structTag : Option String) : List String :=
  match structTag with
  | none => []
  | some tag => if tag = "-" then [] else (tag.data.splitOn ',').map (fun l => (⟨l⟩ : String))

/-- Translation of `jsonName`: the first tag component if the parsed tag
is non-empty, else the lower-cased identifier. -/
def jsonName (f : structField) : String :=
  match parseTag f.tag with
  | [] => lowerName f.name
  | p :: _ => p

/-- Translation of `flattenName`. -/
def flattenName (key : String) (f : structField) : String :=
  (if key = "" then key else key ++ ".") ++ jsonName f

/-- Translation of `sortKeys`: collect the map keys and sort them;
the Mathlib insertion sort over the Go string order stands for
`sort.StringSlice.Sort`, whose output is the same list (sorted
permutations are unique). -/
def sortKeys (input : List (String × String)) : List String :=
  List.insertionSort (fun a b => strLe a b = true) (input.map Prod.fst)

/-- Modelled from the spec: qualified name of the nullable string wrapper
type, declared outside the translated file. -/
def nullableTypeString : String := "nullable.String"

/-- Modelled from the spec: qualified name of the nullable int wrapper. -/
def nullableTypeInt : String := "nullable.Int"

/-- Modelled from the spec: qualified name of the nullable float wrapper. -/
def nullableTypeFloat64 : String := "nullable.Float64"

/-- Modelled from the spec: qualified name of the nullable interface
wrapper. -/
def nullableTypeInterface : String := "nullable.Interface"

/-- Translation of `customStruct` keyed directly by the qualified type
string: lookup in the schema map. -/
def customStructStr (g : CodeGenerator) (s : String) : Option structType :=
  g.parsed.structTypes.lookup s

/-- Translation of `customStruct`. -/
def customStruct (g : CodeGenerator) (t : GoTy) : Option structType :=
  customStructStr g t.str

/-- Modelled from the spec: the dedicated nullable-string validation rule
body lives outside the translated file; only the fact that it appends
some per-field text and succeeds matters to the claims, so it is modelled
as an opaque marker line. -/
def generateNullableStringValidation (fields : List structField) (f : structField) (custom : Bool) : String :=
  "\t// rule nullableString " ++ f.name ++ "\n"

/-- Modelled from the spec: the nullable-int validation rule body (also
reused for float64), modelled as an opaque marker line. -/
def generateNullableIntValidation (fields : List structField) (f : structField) (custom : Bool) : String :=
  "\t// rule nullableInt " ++ f.name ++ "\n"

/-- Modelled from the spec: the nullable-interface validation rule body,
modelled as an opaque marker line. -/
def generateNullableInterfaceValidation (fields : List structField) (f : structField) (custom : Bool) : String :=
  "\t// rule nullableInterface " ++ f.name ++ "\n"

/-- Modelled from the spec: the sequence validation rule body, modelled as
an opaque marker line recording the custom flag. -/
def generateSliceValidation (fields : List structField) (f : structField) (custom : Bool) : String :=
  "\t// rule slice " ++ f.name ++ " " ++ (if custom then "custom" else "basic") ++ "\n"

/-- Modelled from the spec: the mapping validation rule body, modelled as
an opaque marker line recording the custom flag. -/
def generateMapValidation (fields : List structField) (f : structField) (custom : Bool) : String :=
  "\t// rule map " ++ f.name ++ " " ++ (if custom then "custom" else "basic") ++ "\n"

/-- Modelled from the spec: the struct validation rule body, modelled as
an opaque marker line recording the custom flag. -/
def generateStructValidation (fields : List structField) (f : structField) (custom : Bool) : String :=
  "\t// rule struct " ++ f.name ++ " " ++ (if custom then "custom" else "basic") ++ "\n"

/-- Loop body of `generateIsSet` over the field list, threading the buffer
and the `prefix` separator variable (empty before the first emitted
disjunct, then a literal or-separator). -/
def isSetLoop (key2 : String) : List structField → String → String → String × Option String
  | [], buf, _ => (buf, none)
  | f :: fs, buf, sep =>
    if f.exported = false then isSetLoop key2 fs buf sep
    else
      match f.typ.und with
      | .uslice _ => isSetLoop key2 fs (buf ++ sep ++ " len(val." ++ f.name ++ ") > 0") " ||"
      | .umap _ => isSetLoop key2 fs (buf ++ sep ++ " len(val." ++ f.name ++ ") > 0") " ||"
      | .ustruct => isSetLoop key2 fs (buf ++ sep ++ " val." ++ f.name ++ ".IsSet()") " ||"
      | .uother tname =>
          (buf, some ("unhandled type " ++ tname ++ " for IsSet() for \x27" ++ key2 ++ jsonName f ++ "\x27"))

/-- Translation of `CodeGenerator.generateIsSet`. -/
def generateIsSet (g : CodeGenerator) (st : structType) (key : String) (buf : String) : String × Option String :=
  if st.fields.length = 0 then
    (buf, some ("unhandled struct " ++ st.name ++ " (does not have any exported fields)"))
  else
    let buf1 := buf ++ "\nfunc (val *" ++ st.name ++ ") IsSet() bool \x7b\n\treturn"
    let key2 := if key = "" then key else key ++ "."
    match isSetLoop key2 st.fields buf1 "" with
    | (b, some e) => (b, some e)
    | (b, none) => (b ++ "\n\x7d\n", none)

/-- Per-field emission of `generateReset`: the switch body of the loop. -/
def resetFieldStep (g : CodeGenerator) (key2 : String) (f : structField) (buf : String) : String × Option String :=
  if f.exported = false then (buf, none)
  else
    match f.typ.und with
    | .uslice elem =>
        let buf1 :=
          if (customStructStr g elem).isSome then
            buf ++ "for i := range val." ++ f.name ++ "\x7b\n\tval." ++ f.name ++ "[i].Reset()\n\x7d\n"
          else buf
        (buf1 ++ "val." ++ f.name ++ " = val." ++ f.name ++ "[:0]\n", none)
    | .umap _ =>
        (buf ++ "for k := range val." ++ f.name ++ " \x7b\n\tdelete(val." ++ f.name ++ ", k)\n\x7d\n", none)
    | .ustruct =>
        (buf ++ "val." ++ f.name ++ ".Reset()\n", none)
    | .uother tname =>
        (buf, some ("unhandled type " ++ tname ++ " for Reset() for \x27" ++ key2 ++ jsonName f ++ "\x27"))

/-- Loop of `generateReset` over the field list. -/
def resetLoop (g : CodeGenerator) (key2 : String) : List structField → String → String × Option String
  | [], buf => (buf, none)
  | f :: fs, buf =>
    match resetFieldStep g key2 f buf with
    | (b, some e) => (b, some e)
    | (b, none) => resetLoop g key2 fs b

/-- Translation of `CodeGenerator.generateReset`. -/
def generateReset (g : CodeGenerator) (st : structType) (key : String) (buf : String) : String × Option String :=
  let buf1 := buf ++ "\nfunc (val *" ++ st.name ++ ") Reset() \x7b\n"
  let key2 := if key = "" then key else key ++ "."
  match resetLoop g key2 st.fields buf1 with
  | (b, some e) => (b, some e)
  | (b, none) => (b ++ "\x7d\n", none)

/-- Per-field emission of `generateValidation`: skip plain unexported
fields, dispatch on the four nullable wrapper type strings first, then on
the underlying shape; an unmatched shape is the wrapped unhandled-type
error carrying the flattened key. -/
def validateFieldStep (g : CodeGenerator) (key : String) (fields : List structField) (f : structField) (buf : String) : String × Option String :=
  if f.exported = false ∧ f.name ≠ anonymousField then (buf, none)
  else
    if f.typ.str = nullableTypeString then (buf ++ generateNullableStringValidation fields f false, none)
    else if f.typ.str = nullableTypeInt then (buf ++ generateNullableIntValidation fields f false, none)
    else if f.typ.str = nullableTypeFloat64 then (buf ++ generateNullableIntValidation fields f false, none)
    else if f.typ.str = nullableTypeInterface then (buf ++ generateNullableInterfaceValidation fields f false, none)
    else
      match f.typ.und with
      | .uslice elem => (buf ++ generateSliceValidation fields f (customStructStr g elem).isSome, none)
      | .umap elem => (buf ++ generateMapValidation fields f (customStructStr g elem).isSome, none)
      | .ustruct => (buf ++ generateStructValidation fields f (customStruct g f.typ).isSome, none)
      | .uother tname =>
          (buf, some (flattenName key f ++ ": unhandled type " ++ tname))

/-- Loop of `generateValidation` over the field list (the full field list
is also passed through to the rule bodies, as in the source). -/
def validateLoop (g : CodeGenerator) (key : String) (fields : List structField) : List structField → String → String × Option String
  | [], buf => (buf, none)
  | f :: fs, buf =>
    match validateFieldStep g key fields f buf with
    | (b, some e) => (b, some e)
    | (b, none) => validateLoop g key fields fs b

/-- Root test of `generateValidation`: the type name equals the name of
one of the resolved root objects. -/
def isRootType (g : CodeGenerator) (name : String) : Bool :=
  g.rootObjs.any (fun r => name = r.name)

/-- Translation of `CodeGenerator.generateValidation`. -/
def generateValidation (g : CodeGenerator) (st : structType) (key : String) (buf : String) : String × Option String :=
  let buf1 := buf ++ "\nfunc (val *" ++ st.name ++ ") validate() error \x7b\n"
  let buf2 := if isRootType g st.name then buf1 else buf1 ++ "if !val.IsSet() \x7b\n\treturn nil\n\x7d\n"
  match validateLoop g key st.fields st.fields buf2 with
  | (b, some e) => (b, some e)
  | (b, none) => (b ++ "return nil\n\x7d\n", none)

/-- Child type of a field for the recursion of `generate`: the element
type string for maps and slices, the field type itself otherwise. -/
def childStr (f : structField) : String :=
  match f.typ.und with
  | .umap elem => elem
  | .uslice elem => elem
  | .ustruct => f.typ.str
  | .uother _ => f.typ.str

/-- Recursion of `generate` over the field list of a processed type,
descending into every field whose (container-unwrapped) type is a known
schema struct; `recur` is the fuel-smaller recursive call. -/
def genChildren (g : CodeGenerator) (recur : structType → String → GenState → GenRes) (key2 : String) : List structField → GenState → GenRes
  | [], s => .done s
  | f :: fs, s =>
    match customStructStr g (childStr f) with
    | none => genChildren g recur key2 fs s
    | some child =>
      match recur child (key2 ++ jsonName f) s with
      | .done s2 => genChildren g recur key2 fs s2
      | .fail s2 e => .fail s2 e
      | .nofuel => .nofuel

/-- Translation of `CodeGenerator.generate`, with an explicit fuel bound
on recursion depth: a visited type name is a no-op, otherwise the name is
marked processed, the three synthesizers run in order (any error aborts),
and the children are visited recursively under the extended key. -/
def generate (g : CodeGenerator) : Nat → structType → String → GenState → GenRes
  | 0, _, _, _ => .nofuel
  | n + 1, st, key, s =>
    if st.name ∈ s.processed then .done s
    else
      match generateIsSet g st key s.buf with
      | (b, some e) => .fail ⟨b, st.name :: s.processed⟩ e
      | (b, none) =>
        match generateReset g st key b with
        | (b2, some e) => .fail ⟨b2, st.name :: s.processed⟩ e
        | (b2, none) =>
          match generateValidation g st key b2 with
          | (b3, some e) => .fail ⟨b3, st.name :: s.processed⟩ e
          | (b3, none) =>
            let key2 := if key = "" then key else key ++ "."
            genChildren g (generate g n) key2 st.fields ⟨b3, st.name :: s.processed⟩

/-- Loop of `Generate` over the resolved root objects, aborting at the
first error (wrapped with the "code generator" context, as
`errors.Wrap` renders it). -/
def runRoots (g : CodeGenerator) (n : Nat) : List structType → GenState → GenRes
  | [], s => .done s
  | r :: rs, s =>
    match generate g n r "" s with
    | .done s2 => runRoots g n rs s2
    | .fail s2 e => .fail s2 ("code generator: " ++ e)
    | .nofuel => .nofuel

/-- Fixed header of the generated artifact. -/
def headerText (pkgName : String) : String :=
  "// Code generated by \"modeldecoder/generator\". DO NOT EDIT.\n\npackage " ++ pkgName ++ "\n\nimport (\n\t\"fmt\"\n\t\"encoding/json\"\n\t\"github.com/pkg/errors\"\n\t\"regexp\"\n\t\"unicode/utf8\"\n)\n\nvar (\n"

/-- Concatenation of a list of strings. -/
def strConcat : List String → String
  | [] => ""
  | x :: xs => x ++ strConcat xs

/-- Sorted pattern-variable block of the header. -/
def patternBlock (pv : List (String × String)) : String :=
  strConcat ((sortKeys pv).map (fun name => name ++ "Regexp = regexp.MustCompile(" ++ name ++ ")\n")) ++ ")\n"

/-- Buffer contents after the header writes of `Generate`, before any
root is processed. -/
def initState (g : CodeGenerator) : GenState :=
  ⟨headerText g.parsed.pkgName ++ patternBlock g.parsed.patternVariables, []⟩

/-- Fuel used by `Generate`: one more than the schema map size, proved
sufficient for every schema graph. -/
def stdFuel (g : CodeGenerator) : Nat := g.parsed.structTypes.length + 1

/-- Translation of `CodeGenerator.Generate`: emit the header and pattern
block, then run the generator over each root; in Go the partially filled
buffer is returned alongside the error. -/
def Generate (g : CodeGenerator) : String × Option String :=
  match runRoots g (stdFuel g) g.rootObjs (initState g) with
  | .done s => (s.buf, none)
  | .fail s e => (s.buf, some e)
  | .nofuel => ("", some "insufficient fuel")

/-- Translation of the root-resolution loop of `NewCodeGenerator`. -/
def resolveRoots (parsed : Parsed) : List String → Except String (List structType)
  | [] => .ok []
  | rt :: rts =>
    match parsed.structTypes.lookup rt with
    | none => .error ("object with root key " ++ rt ++ " not found")
    | some st => (resolveRoots parsed rts).map (fun l => st :: l)

/-- Translation of `NewCodeGenerator`. -/
def NewCodeGenerator (parsed : Parsed) (rootTypes : List String) : Except String CodeGenerator :=
  (resolveRoots parsed rootTypes).map (fun roots => ⟨parsed, roots⟩)

/-- Names of the record types stored in the schema map; every struct the
generator can reach is one of these. -/
def valueNames (g : CodeGenerator) : List String :=
  g.parsed.structTypes.map (fun kv => kv.2.name)

/-- Number of schema type names not yet processed, the measure that makes
the traversal terminate. -/
def unvisited (g : CodeGenerator) (s : GenState) : Nat :=
  ((valueNames g).toFinset \ s.processed.toFinset).card

/-- Shapes the IsSet synthesizer supports (everything but the unhandled
default branch). -/
def undSupportedIsSet : Und → Bool
  | .uother _ => false
  | _ => true

/-- Specification-side text of one IsSet disjunct: the container length
test for sequences and mappings, the recursive presence call for structs. -/
def isSetTerm (f : structField) : String :=
  match f.typ.und with
  | .uslice _ => " len(val." ++ f.name ++ ") > 0"
  | .umap _ => " len(val." ++ f.name ++ ") > 0"
  | .ustruct => " val." ++ f.name ++ ".IsSet()"
  | .uother _ => ""

/-- Specification-side disjunct list of an IsSet body: one term per
exported field, in declaration order. -/
def isSetTerms (fs : List structField) : List String :=
  (fs.filter (fun f => f.exported)).map isSetTerm

/-- Specification-side or-chain: the disjuncts joined by the or separator. -/
def orChain : List String → String
  | [] => ""
  | d :: ds => d ++ strConcat (ds.map (fun x => " ||" ++ x))

/-- Field-loop part of a validate body together with its closing return,
emitted from an empty buffer; `generateValidation` appends exactly this
after the header and the optional short-circuit. -/
def validationTail (g : CodeGenerator) (st : structType) (key : String) : String × Option String :=
  match validateLoop g key st.fields st.fields "" with
  | (b, some e) => (b, some e)
  | (b, none) => (b ++ "return nil\n\x7d\n", none)

/-- Example fixture: a record in a two-node reference cycle. -/
def stCycA : structType := ⟨"a", [⟨"B", true, none, ⟨"b", .ustruct⟩⟩]⟩

/-- Example fixture: the other record of the cycle. -/
def stCycB : structType := ⟨"b", [⟨"A", true, none, ⟨"a", .ustruct⟩⟩]⟩

/-- Example fixture: a generator over the cyclic two-node schema. -/
def gCyc : CodeGenerator :=
  ⟨⟨"pkg", [("a", stCycA), ("b", stCycB)], [("patternB", "x"), ("patternA", "y")]⟩, [stCycA]⟩

/-- Example fixture: a generator with an empty schema. -/
def gEmpty : CodeGenerator := ⟨⟨"p", [], []⟩, []⟩

/-- Example fixture: a small record whose only field is a nullable
string. -/
def stTag : structType := ⟨"tag", [⟨"Key", true, none, ⟨nullableTypeString, .ustruct⟩⟩]⟩

/-- Example fixture: a generator knowing only the record `tag`. -/
def gTag : CodeGenerator := ⟨⟨"p", [("tag", stTag)], []⟩, []⟩

/-- Example fixture: a field carrying a `json` tag override of `-`. -/
def fDash : structField := ⟨"Foo", true, some "-", ⟨"string", .uother "*types.Basic"⟩⟩

/-- Example fixture: a field carrying a two-component `json` tag. -/
def fNamed : structField := ⟨"Foo", true, some "name,omitempty", ⟨"string", .uother "*types.Basic"⟩⟩

/-- Example fixture: an exported field of a shape no synthesis rule
matches. -/
def fFunc : structField := ⟨"F", true, none, ⟨"func()", .uother "*types.Signature"⟩⟩

/-- Example fixture: a root whose single field no rule matches, failing
presence synthesis mid-method. -/
def stBadRoot : structType := ⟨"a", [fFunc]⟩

/-- Example fixture: a generator whose only root fails during synthesis. -/
def gBadRoot : CodeGenerator := ⟨⟨"p", [("a", stBadRoot)], []⟩, [stBadRoot]⟩

/-- Example fixture: the spec example root with a nullable name and a
sequence of tags. -/
def stRoot : structType :=
  ⟨"Root", [⟨"Name", true, none, ⟨nullableTypeString, .ustruct⟩⟩,
            ⟨"Tags", true, none, ⟨"[]Tag", .uslice "Tag"⟩⟩]⟩

/-- Example fixture: slice-of-known-record field. -/
def fTags : structField := ⟨"Tags", true, none, ⟨"[]tag", .uslice "tag"⟩⟩

/-- Example fixture: map-of-known-record field. -/
def fMap : structField := ⟨"Map", true, none, ⟨"map[string]tag", .umap "tag"⟩⟩

/-- Example fixture: a generator with a failing first root and a healthy
second root. -/
def gBad2 : CodeGenerator :=
  ⟨⟨"p", [("a", stBadRoot), ("tag", stTag)], []⟩, [stBadRoot, stTag]⟩

/-- Example fixture: the state at which generation of `gBad2` aborts —
header plus the first half of an IsSet method. -/
def c9FailState : GenState :=
  ⟨headerText "p" ++ patternBlock [] ++ "\nfunc (val *a) IsSet() bool \x7b\n\treturn", ["a"]⟩

/-- Example fixture: the wrapped error aborting generation of `gBad2`. -/
def c9FailErr : String :=
  "code generator: unhandled type *types.Signature for IsSet() for \x27f\x27"

theorem lexLeChars_total : ∀ as bs : List Char, lexLeChars as bs = true ∨ lexLeChars bs as = true := by
  intro as
  induction as with
  | nil => intro bs; left; rfl
  | cons a as ih =>
    intro bs
    cases bs with
    | nil => right; rfl
    | cons b bs =>
      rcases lt_trichotomy a b with h | h | h
      · left; simp [lexLeChars, h]
      · subst h
        rcases ih bs with h2 | h2
        · left; simp [lexLeChars, h2]
        · right; simp [lexLeChars, h2]
      · right; simp [lexLeChars, h]

theorem lexLeChars_trans : ∀ as bs cs : List Char,
    lexLeChars as bs = true → lexLeChars bs cs = true → lexLeChars as cs = true := by
  intro as
  induction as with
  | nil => intro bs cs h1 h2; rfl
  | cons a as ih =>
    intro bs cs h1 h2
    cases bs with
    | nil => simp [lexLeChars] at h1
    | cons b bs =>
      cases cs with
      | nil => simp [lexLeChars] at h2
      | cons c cs =>
        rcases lt_trichotomy a b with hab | hab | hab
        · rcases lt_trichotomy b c with hbc | hbc | hbc
          · simp [lexLeChars, lt_trans hab hbc]
          · subst hbc; simp [lexLeChars, hab]
          · simp [lexLeChars, hbc, asymm hbc] at h2
        · subst hab
          simp only [lexLeChars, lt_irrefl, if_false] at h1
          rcases lt_trichotomy a c with hac | hac | hac
          · simp [lexLeChars, hac]
          · subst hac
            simp only [lexLeChars, lt_irrefl, if_false] at h2 ⊢
            exact ih bs cs h1 h2
          · simp [lexLeChars, hac, asymm hac] at h2
        · simp [lexLeChars, hab, asymm hab] at h1

theorem lexLeChars_antisymm : ∀ as bs : List Char,
    lexLeChars as bs = true → lexLeChars bs as = true → as = bs := by
  intro as
  induction as with
  | nil =>
    intro bs h1 h2
    cases bs with
    | nil => rfl
    | cons b bs => simp [lexLeChars] at h2
  | cons a as ih =>
    intro bs h1 h2
    cases bs with
    | nil => simp [lexLeChars] at h1
    | cons b bs =>
      rcases lt_trichotomy a b with hab | hab | hab
      · simp [lexLeChars, hab, asymm hab] at h2
      · subst hab
        simp only [lexLeChars, lt_irrefl, if_false] at h1 h2
        rw [ih bs h1 h2]
      · simp [lexLeChars, hab, asymm hab] at h1

instance : IsTrans String (fun a b => strLe a b = true) :=
  ⟨fun a b c => lexLeChars_trans a.data b.data c.data⟩

instance : IsTotal String (fun a b => strLe a b = true) :=
  ⟨fun a b => lexLeChars_total a.data b.data⟩

instance : IsAntisymm String (fun a b => strLe a b = true) :=
  ⟨fun a b h1 h2 => String.ext (lexLeChars_antisymm a.data b.data h1 h2)⟩

theorem sortKeys_sorted (input : List (String × String)) :
    List.Sorted (fun a b => strLe a b = true) (sortKeys input) :=
  List.sorted_insertionSort _ _

theorem sortKeys_perm_eq {l1 l2 : List (String × String)} (h : l1.Perm l2) :
    sortKeys l1 = sortKeys l2 := by
  refine List.eq_of_perm_of_sorted ?_ (sortKeys_sorted l1) (sortKeys_sorted l2)
  exact ((List.perm_insertionSort _ _).trans (h.map Prod.fst)).trans
    (List.perm_insertionSort _ _).symm

theorem resetLoop_pv (pk : String) (stt : List (String × structType))
    (pv pv2 : List (String × String)) (ro : List structType) (key2 : String) :
    ∀ (fs : List structField) (buf : String),
      resetLoop ⟨⟨pk, stt, pv⟩, ro⟩ key2 fs buf = resetLoop ⟨⟨pk, stt, pv2⟩, ro⟩ key2 fs buf := by
  intro fs
  induction fs with
  | nil => intro buf; rfl
  | cons f fs ih =>
    intro buf
    simp only [resetLoop]
    rw [show resetFieldStep ⟨⟨pk, stt, pv⟩, ro⟩ key2 f buf
          = resetFieldStep ⟨⟨pk, stt, pv2⟩, ro⟩ key2 f buf from rfl]
    rcases h : resetFieldStep ⟨⟨pk, stt, pv2⟩, ro⟩ key2 f buf with ⟨b, e⟩
    cases e with
    | some e => rfl
    | none => exact ih b

theorem generateReset_pv (pk : String) (stt : List (String × structType))
    (pv pv2 : List (String × String)) (ro : List structType)
    (st : structType) (key : String) (buf : String) :
    generateReset ⟨⟨pk, stt, pv⟩, ro⟩ st key buf = generateReset ⟨⟨pk, stt, pv2⟩, ro⟩ st key buf := by
  simp only [generateReset]
  rw [resetLoop_pv pk stt pv pv2 ro]

theorem validateLoop_pv (pk : String) (stt : List (String × structType))
    (pv pv2 : List (String × String)) (ro : List structType)
    (key : String) (fields : List structField) :
    ∀ (fs : List structField) (buf : String),
      validateLoop ⟨⟨pk, stt, pv⟩, ro⟩ key fields fs buf
        = validateLoop ⟨⟨pk, stt, pv2⟩, ro⟩ key fields fs buf := by
  intro fs
  induction fs with
  | nil => intro buf; rfl
  | cons f fs ih =>
    intro buf
    simp only [validateLoop]
    rw [show validateFieldStep ⟨⟨pk, stt, pv⟩, ro⟩ key fields f buf
          = validateFieldStep ⟨⟨pk, stt, pv2⟩, ro⟩ key fields f buf from rfl]
    rcases h : validateFieldStep ⟨⟨pk, stt, pv2⟩, ro⟩ key fields f buf with ⟨b, e⟩
    cases e with
    | some e => rfl
    | none => exact ih b

theorem generateValidation_pv (pk : String) (stt : List (String × structType))
    (pv pv2 : List (String × String)) (ro : List structType)
    (st : structType) (key : String) (buf : String) :
    generateValidation ⟨⟨pk, stt, pv⟩, ro⟩ st key buf
      = generateValidation ⟨⟨pk, stt, pv2⟩, ro⟩ st key buf := by
  simp only [generateValidation]
  rw [show isRootType ⟨⟨pk, stt, pv⟩, ro⟩ st.name = isRootType ⟨⟨pk, stt, pv2⟩, ro⟩ st.name from rfl]
  rw [validateLoop_pv pk stt pv pv2 ro]

theorem genChildren_pv (pk : String) (stt : List (String × structType))
    (pv pv2 : List (String × String)) (ro : List structType)
    (r1 r2 : structType → String → GenState → GenRes)
    (hr : ∀ (st : structType) (k : String) (s : GenState), r1 st k s = r2 st k s)
    (key2 : String) :
    ∀ (fs : List structField) (s : GenState),
      genChildren ⟨⟨pk, stt, pv⟩, ro⟩ r1 key2 fs s = genChildren ⟨⟨pk, stt, pv2⟩, ro⟩ r2 key2 fs s := by
  intro fs
  induction fs with
  | nil => intro s; rfl
  | cons f fs ih =>
    intro s
    simp only [genChildren]
    rw [show customStructStr ⟨⟨pk, stt, pv⟩, ro⟩ (childStr f)
          = customStructStr ⟨⟨pk, stt, pv2⟩, ro⟩ (childStr f) from rfl]
    rcases h : customStructStr ⟨⟨pk, stt, pv2⟩, ro⟩ (childStr f) with _ | child
    · exact ih s
    · dsimp only
      rw [hr child (key2 ++ jsonName f) s]
      cases h2 : r2 child (key2 ++ jsonName f) s with
      | done s2 => exact ih s2
      | fail s2 e => rfl
      | nofuel => rfl

theorem generate_pv (pk : String) (stt : List (String × structType))
    (pv pv2 : List (String × String)) (ro : List structType) :
    ∀ (n : Nat) (st : structType) (key : String) (s : GenState),
      generate ⟨⟨pk, stt, pv⟩, ro⟩ n st key s = generate ⟨⟨pk, stt, pv2⟩, ro⟩ n st key s := by
  intro n
  induction n with
  | zero => intro st key s; rfl
  | succ n ih =>
    intro st key s
    by_cases hmem : st.name ∈ s.processed
    · simp [generate, hmem]
    · simp only [generate, if_neg hmem]
      rw [show generateIsSet ⟨⟨pk, stt, pv⟩, ro⟩ st key s.buf
            = generateIsSet ⟨⟨pk, stt, pv2⟩, ro⟩ st key s.buf from rfl]
      rcases h1 : generateIsSet ⟨⟨pk, stt, pv2⟩, ro⟩ st key s.buf with ⟨b, e1⟩
      cases e1 with
      | some e => rfl
      | none =>
        dsimp only
        rw [generateReset_pv pk stt pv pv2 ro st key b]
        rcases h2 : generateReset ⟨⟨pk, stt, pv2⟩, ro⟩ st key b with ⟨b2, e2⟩
        cases e2 with
        | some e => rfl
        | none =>
          dsimp only
          rw [generateValidation_pv pk stt pv pv2 ro st key b2]
          rcases h3 : generateValidation ⟨⟨pk, stt, pv2⟩, ro⟩ st key b2 with ⟨b3, e3⟩
          cases e3 with
          | some e => rfl
          | none =>
            dsimp only
            exact genChildren_pv pk stt pv pv2 ro _ _ ih _ st.fields _

theorem runRoots_pv (pk : String) (stt : List (String × structType))
    (pv pv2 : List (String × String)) (ro : List structType) (n : Nat) :
    ∀ (roots : List structType) (s : GenState),
      runRoots ⟨⟨pk, stt, pv⟩, ro⟩ n roots s = runRoots ⟨⟨pk, stt, pv2⟩, ro⟩ n roots s := by
  intro roots
  induction roots with
  | nil => intro s; rfl
  | cons r rs ih =>
    intro s
    simp only [runRoots]
    rw [generate_pv pk stt pv pv2 ro n r "" s]
    cases h : generate ⟨⟨pk, stt, pv2⟩, ro⟩ n r "" s with
    | done s2 => exact ih s2
    | fail s2 e => rfl
    | nofuel => rfl

/-- C2: generation is deterministic.  In the embedding a run is a pure
function, so two runs over byte-identical inputs are trivially
byte-identical; the only nondeterminism of the original (Go map iteration
order over the pattern pool) is modelled by a permutation of the
pattern-variable association list, and `Generate` is invariant under it.
Moreover the pattern-variable declarations are emitted in lexicographic
order of their names (`sortKeys` is sorted under the byte-wise string
order, and `patternBlock` emits in exactly that order). -/
theorem Generate_deterministic (pk : String) (stt : List (String × structType))
    (pv pv2 : List (String × String)) (ro : List structType)
    (hperm : pv.Perm pv2) :
    Generate ⟨⟨pk, stt, pv⟩, ro⟩ = Generate ⟨⟨pk, stt, pv2⟩, ro⟩
      ∧ List.Sorted (fun a b => strLe a b = true) (sortKeys pv) := by
  constructor
  · have hsk : sortKeys pv = sortKeys pv2 := sortKeys_perm_eq hperm
    simp only [Generate, stdFuel, initState, patternBlock]
    rw [hsk, runRoots_pv]
  · exact sortKeys_sorted pv

theorem validateFieldStep_factor (g : CodeGenerator) (key : String) (fields : List structField)
    (f : structField) (buf : String) :
    validateFieldStep g key fields f buf
      = (buf ++ (validateFieldStep g key fields f "").1, (validateFieldStep g key fields f "").2) := by
  simp only [validateFieldStep]
  split_ifs <;> try simp [String.append_empty, String.empty_append]
  cases f.typ.und <;> simp [String.append_empty, String.empty_append]

theorem validateLoop_factor (g : CodeGenerator) (key : String) (fields : List structField) :
    ∀ (fs : List structField) (buf : String),
      validateLoop g key fields fs buf
        = (buf ++ (validateLoop g key fields fs "").1, (validateLoop g key fields fs "").2) := by
  intro fs
  induction fs with
  | nil => intro buf; simp [validateLoop, String.append_empty]
  | cons f fs ih =>
    intro buf
    simp only [validateLoop]
    rcases hs : validateFieldStep g key fields f "" with ⟨t, e⟩
    have hb : validateFieldStep g key fields f buf = (buf ++ t, e) := by
      rw [validateFieldStep_factor g key fields f buf, hs]
    rw [hb]
    cases e with
    | some e0 => simp
    | none =>
      dsimp only
      rw [ih (buf ++ t), ih t]
      simp [String.append_assoc]

theorem validateLoop_concat (g : CodeGenerator) (key : String) (fields : List structField) :
    ∀ (pre post : List structField) (buf : String),
      validateLoop g key fields (pre ++ post) buf
        = (match validateLoop g key fields pre buf with
           | (b, some e) => (b, some e)
           | (b, none) => validateLoop g key fields post b) := by
  intro pre
  induction pre with
  | nil => intro post buf; simp [validateLoop]
  | cons f pre ih =>
    intro post buf
    simp only [List.cons_append, validateLoop]
    rcases hs : validateFieldStep g key fields f buf with ⟨b, e⟩
    cases e with
    | some e0 => rfl
    | none => dsimp only; exact ih post b

/-- C3: the emitted validate body begins with the
presence short-circuit exactly when the type name is not among the root
names: `generateValidation` appends the method header, then the
short-circuit statement if and only if the type is not a root, then the
field validations and the closing return (`validationTail`), which are
computed independently of root status. -/
theorem validation_short_circuit_iff_nonroot (g : CodeGenerator) (st : structType)
    (key : String) (buf : String) :
    generateValidation g st key buf
      = (buf ++ "\nfunc (val *" ++ st.name ++ ") validate() error \x7b\n"
          ++ (if isRootType g st.name then "" else "if !val.IsSet() \x7b\n\treturn nil\n\x7d\n")
          ++ (validationTail g st key).1,
         (validationTail g st key).2) := by
  simp only [generateValidation, validationTail]
  rcases hl : validateLoop g key st.fields st.fields "" with ⟨t, e⟩
  by_cases hroot : isRootType g st.name
  · simp only [if_pos hroot]
    rw [validateLoop_factor g key st.fields st.fields
      (buf ++ "\nfunc (val *" ++ st.name ++ ") validate() error \x7b\n"), hl]
    cases e <;> simp [String.append_empty, String.empty_append, String.append_assoc]
  · simp only [if_neg hroot]
    rw [validateLoop_factor g key st.fields st.fields
      (buf ++ "\nfunc (val *" ++ st.name ++ ") validate() error \x7b\n"
        ++ "if !val.IsSet() \x7b\n\treturn nil\n\x7d\n"), hl]
    cases e <;> simp [String.append_empty, String.empty_append, String.append_assoc]

/-- C7: a considered field (exported or anonymous) whose type string is
none of the four nullable wrappers and whose underlying shape is neither
sequence, mapping nor struct makes validation synthesis fail, with an
error message carrying the dotted flattened key: the parent key path
joined with a dot to the external name of the field. -/
theorem validation_unsupported_field_error (g : CodeGenerator) (nm key : String)
    (pre post : List structField) (f : structField) (tname : String) (buf : String)
    (hconsider : f.exported = true ∨ f.name = anonymousField)
    (h1 : f.typ.str ≠ nullableTypeString) (h2 : f.typ.str ≠ nullableTypeInt)
    (h3 : f.typ.str ≠ nullableTypeFloat64) (h4 : f.typ.str ≠ nullableTypeInterface)
    (hu : f.typ.und = .uother tname)
    (hpre : (validateLoop g key (pre ++ f :: post) pre "").2 = none) :
    (generateValidation g ⟨nm, pre ++ f :: post⟩ key buf).2
      = some (flattenName key f ++ ": unhandled type " ++ tname)
    ∧ flattenName key f = (if key = "" then "" else key ++ ".") ++ jsonName f := by
  have hskip : ¬(f.exported = false ∧ f.name ≠ anonymousField) := by
    rcases hconsider with hc | hc
    · simp [hc]
    · simp [hc]
  have hstep : ∀ b, validateFieldStep g key (pre ++ f :: post) f b
      = (b, some (flattenName key f ++ ": unhandled type " ++ tname)) := by
    intro b
    simp [validateFieldStep, hskip, h1, h2, h3, h4, hu]
  constructor
  · simp only [generateValidation]
    rcases hl : validateLoop g key (pre ++ f :: post) pre "" with ⟨t, e⟩
    rw [hl] at hpre
    dsimp only at hpre
    subst hpre
    rw [validateLoop_concat g key (pre ++ f :: post) pre (f :: post)]
    rw [validateLoop_factor g key (pre ++ f :: post) pre, hl]
    dsimp only
    simp only [validateLoop, hstep]
  · by_cases hk : key = "" <;> simp [flattenName, hk]

/-- Witness for C7: the unmatched function-typed field of the examples,
under the parent key `tags`. -/
theorem validation_unsupported_field_error_inst :
    (fFunc.exported = true ∨ fFunc.name = anonymousField)
    ∧ fFunc.typ.str ≠ nullableTypeString
    ∧ fFunc.typ.str ≠ nullableTypeInt
    ∧ fFunc.typ.str ≠ nullableTypeFloat64
    ∧ fFunc.typ.str ≠ nullableTypeInterface
    ∧ fFunc.typ.und = .uother "*types.Signature"
    ∧ (validateLoop gEmpty "tags" ([] ++ fFunc :: []) [] "").2 = none
    ∧ ((generateValidation gEmpty ⟨"x", [] ++ fFunc :: []⟩ "tags" "").2
        = some (flattenName "tags" fFunc ++ ": unhandled type " ++ "*types.Signature")
      ∧ flattenName "tags" fFunc
          = (if ("tags" : String) = "" then "" else "tags" ++ ".") ++ jsonName fFunc) :=
  ⟨by decide, by decide, by decide, by decide, by decide, by decide, by decide,
   validation_unsupported_field_error gEmpty "x" "tags" [] [] fFunc "*types.Signature" ""
     (by decide) (by decide) (by decide) (by decide) (by decide) (by decide) (by decide)⟩

/-- C5: for an exported sequence field the Reset synthesizer emits, when
the element type is a record known to the schema graph, first the loop
resetting every element and only afterwards the capacity-preserving
truncation; for any other element type only the truncation is emitted. -/
theorem reset_slice_elements_before_truncate (g : CodeGenerator) (key2 : String)
    (f : structField) (elem : String) (buf : String)
    (hexp : f.exported = true) (hu : f.typ.und = .uslice elem) :
    resetFieldStep g key2 f buf
      = (buf ++ (if (customStructStr g elem).isSome then
            "for i := range val." ++ f.name ++ "\x7b\n\tval." ++ f.name ++ "[i].Reset()\n\x7d\n"
          else "")
          ++ ("val." ++ f.name ++ " = val." ++ f.name ++ "[:0]\n"), none) := by
  have hnf : ¬(f.exported = false) := by simp [hexp]
  simp only [resetFieldStep, if_neg hnf, hu]
  by_cases hc : (customStructStr g elem).isSome
  · simp only [if_pos hc, Prod.mk.injEq, String.append_assoc, and_true, and_self]
  · simp only [if_neg hc, Prod.mk.injEq, String.append_assoc, String.empty_append,
      String.append_empty, and_true, and_self]

/-- Witness for C5: a slice of the known record `tag`, next to the
generic conclusion shape. -/
theorem reset_slice_elements_before_truncate_inst :
    fTags.exported = true
    ∧ fTags.typ.und = .uslice "tag"
    ∧ resetFieldStep gTag "" fTags ""
        = ("" ++ (if (customStructStr gTag "tag").isSome then
              "for i := range val." ++ fTags.name ++ "\x7b\n\tval." ++ fTags.name ++ "[i].Reset()\n\x7d\n"
            else "")
            ++ ("val." ++ fTags.name ++ " = val." ++ fTags.name ++ "[:0]\n"), none) :=
  ⟨by decide, by decide,
   reset_slice_elements_before_truncate gTag "" fTags "tag" "" (by decide) (by decide)⟩

/-- C10: for an exported mapping field the Reset synthesizer emits only
the in-place key-deletion loop, and the emitted text is independent of
the schema graph — map element values are never individually reset even
when the element type is a record known to the schema graph. -/
theorem reset_map_drains_without_element_reset (g g2 : CodeGenerator) (key2 : String)
    (f : structField) (elem : String) (buf : String)
    (hexp : f.exported = true) (hu : f.typ.und = .umap elem) :
    resetFieldStep g key2 f buf
      = (buf ++ ("for k := range val." ++ f.name ++ " \x7b\n\tdelete(val." ++ f.name ++ ", k)\n\x7d\n"), none)
    ∧ resetFieldStep g key2 f buf = resetFieldStep g2 key2 f buf := by
  constructor
  · simp [resetFieldStep, hexp, hu, String.append_assoc]
  · simp [resetFieldStep, hexp, hu]

/-- Witness for C10: a map whose element type is the known record `tag`
(in `gTag`), against a generator that does not know it. -/
theorem reset_map_drains_without_element_reset_inst :
    fMap.exported = true
    ∧ fMap.typ.und = .umap "tag"
    ∧ (resetFieldStep gTag "" fMap ""
        = ("" ++ ("for k := range val." ++ fMap.name ++ " \x7b\n\tdelete(val." ++ fMap.name ++ ", k)\n\x7d\n"), none)
      ∧ resetFieldStep gTag "" fMap "" = resetFieldStep gEmpty "" fMap "") :=
  ⟨by decide, by decide,
   reset_map_drains_without_element_reset gTag gEmpty "" fMap "tag" "" (by decide) (by decide)⟩

/-- C6 counterexample: with a declared tag override of exactly `-`, the
resolved external name is neither the override nor absent: `parseTag`
returns an empty list and `jsonName` falls back to the lower-cased
identifier, so the field is not excluded from external naming. -/
theorem jsonName_dash_not_excluded :
    jsonName fDash = "foo" ∧ parseTag (some "-") = ([] : List String) ∧ jsonName fDash ≠ "-" := by
  decide

/-- C6 amended: external-name resolution returns the lower-cased
identifier when no tag is present; a tag of exactly `-` behaves the same
as an absent tag (the field still receives the lower-cased identifier,
it is not excluded from external naming); any other declared tag yields
the first comma-separated component of the tag. -/
theorem jsonName_resolution (f : structField) :
    (f.tag = none → jsonName f = lowerName f.name)
    ∧ (f.tag = some "-" → jsonName f = lowerName f.name)
    ∧ (∀ (t : String) (l : List Char) (ls : List (List Char)),
        f.tag = some t → t ≠ "-" → t.data.splitOn ',' = l :: ls → jsonName f = ⟨l⟩) := by
  refine ⟨?_, ?_, ?_⟩
  · intro h; simp [jsonName, parseTag, h]
  · intro h; simp [jsonName, parseTag, h]
  · intro t l ls h hne hsplit
    simp [jsonName, parseTag, h, hne, hsplit]

/-- Witness for C6 amended at a dash-tagged and a comma-tagged field. -/
theorem jsonName_resolution_inst :
    (fDash.tag = some "-" ∧ jsonName fDash = lowerName fDash.name)
    ∧ (fNamed.tag = some "name,omitempty"
        ∧ ("name,omitempty" : String) ≠ "-"
        ∧ "name,omitempty".data.splitOn ',' = "name".data :: ["omitempty".data]
        ∧ jsonName fNamed = (⟨"name".data⟩ : String)) :=
  ⟨⟨by decide, (jsonName_resolution fDash).2.1 (by decide)⟩,
   ⟨by decide, by decide, by decide,
    (jsonName_resolution fNamed).2.2 "name,omitempty" "name".data ["omitempty".data]
      (by decide) (by decide) (by decide)⟩⟩

/-- C4: evaluation at the failing input.  The source checks
`len(structTyp.fields) == 0` rather than the number of exported fields,
so a type whose only field is unexported passes presence synthesis
without error, emitting a degenerate IsSet body with an empty return
(invalid Go) — contradicting the very error message text of the check and
the spec; only a type with no fields at all fails. -/
theorem isSet_no_error_on_unexported_only :
    generateIsSet gEmpty ⟨"x", [⟨"_", false, none, ⟨"secret", .uother "*types.Basic"⟩⟩]⟩ "" ""
      = ("\nfunc (val *x) IsSet() bool \x7b\n\treturn\n\x7d\n", none)
    ∧ generateIsSet gEmpty ⟨"x", []⟩ "" ""
      = ("", some "unhandled struct x (does not have any exported fields)") := by
  decide

theorem isSetLoop_sep (key2 : String) :
    ∀ (fs : List structField) (buf : String),
      (∀ f ∈ fs, f.exported = true → undSupportedIsSet f.typ.und = true) →
      isSetLoop key2 fs buf " ||"
        = (buf ++ strConcat ((isSetTerms fs).map (fun x => " ||" ++ x)), none) := by
  intro fs
  induction fs with
  | nil => intro buf h; simp [isSetLoop, isSetTerms, strConcat, String.append_empty]
  | cons f fs ih =>
    intro buf h
    have hs : ∀ f2 ∈ fs, f2.exported = true → undSupportedIsSet f2.typ.und = true :=
      fun f2 hm => h f2 (List.mem_cons_of_mem f hm)
    by_cases hexp : f.exported = true
    · have hterm : isSetTerms (f :: fs) = isSetTerm f :: isSetTerms fs := by
        simp [isSetTerms, hexp]
      have hnf : ¬(f.exported = false) := by simp [hexp]
      cases hu : f.typ.und with
      | uother tn =>
        exact absurd (h f (List.mem_cons_self f fs) hexp) (by simp [hu, undSupportedIsSet])
      | uslice elem =>
        rw [hterm]
        simp only [isSetLoop, if_neg hnf, hu]
        rw [ih (buf ++ " ||" ++ " len(val." ++ f.name ++ ") > 0") hs]
        simp only [List.map_cons, strConcat, isSetTerm, hu, String.append_assoc,
          Prod.mk.injEq, and_true, and_self]
      | umap elem =>
        rw [hterm]
        simp only [isSetLoop, if_neg hnf, hu]
        rw [ih (buf ++ " ||" ++ " len(val." ++ f.name ++ ") > 0") hs]
        simp only [List.map_cons, strConcat, isSetTerm, hu, String.append_assoc,
          Prod.mk.injEq, and_true, and_self]
      | ustruct =>
        rw [hterm]
        simp only [isSetLoop, if_neg hnf, hu]
        rw [ih (buf ++ " ||" ++ " val." ++ f.name ++ ".IsSet()") hs]
        simp only [List.map_cons, strConcat, isSetTerm, hu, String.append_assoc,
          Prod.mk.injEq, and_true, and_self]
    · have hfe : f.exported = false := by revert hexp; cases f.exported <;> simp
      have hterm : isSetTerms (f :: fs) = isSetTerms fs := by simp [isSetTerms, hfe]
      rw [hterm]
      simp only [isSetLoop, if_pos hfe]
      exact ih buf hs

theorem isSetLoop_first (key2 : String) :
    ∀ (fs : List structField) (buf : String),
      (∀ f ∈ fs, f.exported = true → undSupportedIsSet f.typ.und = true) →
      isSetLoop key2 fs buf "" = (buf ++ orChain (isSetTerms fs), none) := by
  intro fs
  induction fs with
  | nil => intro buf h; simp [isSetLoop, isSetTerms, orChain, String.append_empty]
  | cons f fs ih =>
    intro buf h
    have hs : ∀ f2 ∈ fs, f2.exported = true → undSupportedIsSet f2.typ.und = true :=
      fun f2 hm => h f2 (List.mem_cons_of_mem f hm)
    by_cases hexp : f.exported = true
    · have hterm : isSetTerms (f :: fs) = isSetTerm f :: isSetTerms fs := by
        simp [isSetTerms, hexp]
      have hnf : ¬(f.exported = false) := by simp [hexp]
      cases hu : f.typ.und with
      | uother tn =>
        exact absurd (h f (List.mem_cons_self f fs) hexp) (by simp [hu, undSupportedIsSet])
      | uslice elem =>
        rw [hterm]
        simp only [isSetLoop, if_neg hnf, hu]
        rw [isSetLoop_sep key2 fs (buf ++ "" ++ " len(val." ++ f.name ++ ") > 0") hs]
        simp only [orChain, isSetTerm, hu, String.append_assoc, String.append_empty,
          String.empty_append, Prod.mk.injEq, and_true, and_self]
      | umap elem =>
        rw [hterm]
        simp only [isSetLoop, if_neg hnf, hu]
        rw [isSetLoop_sep key2 fs (buf ++ "" ++ " len(val." ++ f.name ++ ") > 0") hs]
        simp only [orChain, isSetTerm, hu, String.append_assoc, String.append_empty,
          String.empty_append, Prod.mk.injEq, and_true, and_self]
      | ustruct =>
        rw [hterm]
        simp only [isSetLoop, if_neg hnf, hu]
        rw [isSetLoop_sep key2 fs (buf ++ "" ++ " val." ++ f.name ++ ".IsSet()") hs]
        simp only [orChain, isSetTerm, hu, String.append_assoc, String.append_empty,
          String.empty_append, Prod.mk.injEq, and_true, and_self]
    · have hfe : f.exported = false := by revert hexp; cases f.exported <;> simp
      have hterm : isSetTerms (f :: fs) = isSetTerms fs := by simp [isSetTerms, hfe]
      rw [hterm]
      simp only [isSetLoop, if_pos hfe]
      exact ih buf hs

/-- C8: when presence synthesis succeeds — the field list is non-empty
and every exported field is a sequence, mapping or struct — the emitted
IsSet body is a single boolean or-chain over exactly the exported fields
in declaration order, with a length test for container fields and a
recursive presence call for record fields; unexported fields contribute
no disjunct. -/
theorem isSet_or_chain (g : CodeGenerator) (st : structType) (key : String) (buf : String)
    (hne : st.fields ≠ [])
    (hsup : ∀ f ∈ st.fields, f.exported = true → undSupportedIsSet f.typ.und = true) :
    generateIsSet g st key buf
      = (buf ++ "\nfunc (val *" ++ st.name ++ ") IsSet() bool \x7b\n\treturn"
          ++ orChain (isSetTerms st.fields) ++ "\n\x7d\n", none) := by
  have hlen : ¬(st.fields.length = 0) := fun h2 => hne (List.length_eq_zero.mp h2)
  simp only [generateIsSet, if_neg hlen]
  rw [isSetLoop_first (if key = "" then key else key ++ ".") st.fields
    (buf ++ "\nfunc (val *" ++ st.name ++ ") IsSet() bool \x7b\n\treturn") hsup]

/-- Witness for C8 at the spec example root: the emitted expression is
the or-chain of the nullable name presence call and the tags length
test. -/
theorem isSet_or_chain_inst :
    stRoot.fields ≠ []
    ∧ (∀ f ∈ stRoot.fields, f.exported = true → undSupportedIsSet f.typ.und = true)
    ∧ generateIsSet gEmpty stRoot "" ""
        = ("" ++ "\nfunc (val *" ++ stRoot.name ++ ") IsSet() bool \x7b\n\treturn"
            ++ orChain (isSetTerms stRoot.fields) ++ "\n\x7d\n", none) :=
  ⟨by decide, by decide, isSet_or_chain gEmpty stRoot "" "" (by decide) (by decide)⟩

/-- Witness for C2 at a concrete schema and permuted pattern pools. -/
theorem Generate_deterministic_inst :
    List.Perm [("patternB", "x"), ("patternA", "y")] [("patternA", "y"), ("patternB", "x")]
    ∧ (Generate ⟨⟨"pkg", [("a", stCycA), ("b", stCycB)], [("patternB", "x"), ("patternA", "y")]⟩, [stCycA]⟩
        = Generate ⟨⟨"pkg", [("a", stCycA), ("b", stCycB)], [("patternA", "y"), ("patternB", "x")]⟩, [stCycA]⟩
      ∧ List.Sorted (fun a b => strLe a b = true) (sortKeys [("patternB", "x"), ("patternA", "y")])) :=
  ⟨by decide,
   Generate_deterministic "pkg" [("a", stCycA), ("b", stCycB)]
     [("patternB", "x"), ("patternA", "y")] [("patternA", "y"), ("patternB", "x")] [stCycA]
     (by decide)⟩

set_option maxRecDepth 40000 in
/-- C9 counterexample: an erroring `Generate` call does hand back a
buffer containing partially generated output — the header followed by
the first half of an IsSet method — alongside the error, refuting the
claim that an erroring run produces no artifact at all. -/
theorem generate_error_hands_back_partial_buffer :
    (Generate gBadRoot).2
      = some "code generator: unhandled type *types.Signature for IsSet() for \x27f\x27"
    ∧ (Generate gBadRoot).1
      = headerText "p" ++ patternBlock [] ++ "\nfunc (val *a) IsSet() bool \x7b\n\treturn"
    ∧ (Generate gBadRoot).1 ≠ "" := by
  decide

/-- C9 amended: the run aborts at the first failing synthesis step — an
error from one root stops the run, roots after the failure point
contribute nothing — and `Generate` returns that error together with
the buffer holding everything generated before the failure: the partial
output is handed back alongside the error, not withheld. -/
theorem run_aborts_at_first_error :
    (∀ (g : CodeGenerator) (n : Nat) (rs1 rs2 : List structType) (s s2 : GenState) (e : String),
        runRoots g n rs1 s = .fail s2 e → runRoots g n (rs1 ++ rs2) s = .fail s2 e)
    ∧ (∀ (g : CodeGenerator) (s2 : GenState) (e : String),
        runRoots g (stdFuel g) g.rootObjs (initState g) = .fail s2 e → Generate g = (s2.buf, some e)) := by
  constructor
  · intro g n rs1
    induction rs1 with
    | nil => intro rs2 s s2 e h; simp [runRoots] at h
    | cons r rs ih =>
      intro rs2 s s2 e h
      simp only [runRoots, List.cons_append] at h ⊢
      cases hg : generate g n r "" s with
      | done s3 =>
        rw [hg] at h
        dsimp only at h ⊢
        exact ih rs2 s3 s2 e h
      | fail s3 e3 =>
        rw [hg] at h
        dsimp only at h ⊢
        exact h
      | nofuel =>
        rw [hg] at h
        simp at h
  · intro g s2 e h
    simp only [Generate, h]

set_option maxRecDepth 40000 in
/-- Witness for C9 amended: the failing first root of `gBad2` aborts the
run before its second root, and `Generate` returns the partial buffer
with the error. -/
theorem run_aborts_at_first_error_inst :
    runRoots gBad2 (stdFuel gBad2) [stBadRoot] (initState gBad2) = .fail c9FailState c9FailErr
    ∧ runRoots gBad2 (stdFuel gBad2) ([stBadRoot] ++ [stTag]) (initState gBad2)
        = .fail c9FailState c9FailErr
    ∧ Generate gBad2 = (c9FailState.buf, some c9FailErr) :=
  ⟨by decide,
   run_aborts_at_first_error.1 gBad2 (stdFuel gBad2) [stBadRoot] [stTag] (initState gBad2)
     c9FailState c9FailErr (by decide),
   run_aborts_at_first_error.2 gBad2 c9FailState c9FailErr (by decide)⟩

theorem lookup_name_mem_aux :
    ∀ (l : List (String × structType)) (a : String) (b : structType),
      l.lookup a = some b → b.name ∈ l.map (fun kv => kv.2.name) := by
  intro l
  induction l with
  | nil => intro a b h; simp [List.lookup] at h
  | cons kv l ih =>
    intro a b h
    obtain ⟨k, v⟩ := kv
    rw [List.lookup_cons] at h
    cases hk : (a == k) with
    | false =>
      rw [hk] at h
      dsimp only at h
      simp only [List.map_cons]
      exact List.mem_cons_of_mem _ (ih a b h)
    | true =>
      rw [hk] at h
      dsimp only at h
      injection h with h
      subst h
      simp only [List.map_cons]
      exact List.mem_cons_self _ _

theorem child_name_mem (g : CodeGenerator) (cs : String) (child : structType)
    (h : customStructStr g cs = some child) : child.name ∈ valueNames g :=
  lookup_name_mem_aux g.parsed.structTypes cs child h

theorem unvisited_le_of_subset (g : CodeGenerator) {s s2 : GenState}
    (h : s.processed ⊆ s2.processed) : unvisited g s2 ≤ unvisited g s := by
  apply Finset.card_le_card
  apply Finset.sdiff_subset_sdiff (Finset.Subset.refl _)
  intro x hx
  rw [List.mem_toFinset] at hx ⊢
  exact h hx

theorem unvisited_insert_lt (g : CodeGenerator) (s : GenState) (b nm : String)
    (hv : nm ∈ valueNames g) (hn : nm ∉ s.processed) :
    unvisited g (⟨b, nm :: s.processed⟩ : GenState) < unvisited g s := by
  simp only [unvisited]
  apply Finset.card_lt_card
  have hsub : (valueNames g).toFinset \ (nm :: s.processed).toFinset
      ⊆ (valueNames g).toFinset \ s.processed.toFinset := by
    apply Finset.sdiff_subset_sdiff (Finset.Subset.refl _)
    intro x hx
    rw [List.mem_toFinset] at hx ⊢
    exact List.mem_cons_of_mem _ hx
  refine (Finset.ssubset_iff_of_subset hsub).mpr ⟨nm, ?_, ?_⟩
  · rw [Finset.mem_sdiff, List.mem_toFinset, List.mem_toFinset]
    exact ⟨hv, hn⟩
  · intro hmem
    rw [Finset.mem_sdiff, List.mem_toFinset, List.mem_toFinset] at hmem
    exact hmem.2 (List.mem_cons_self _ _)

theorem unvisited_lt_stdFuel (g : CodeGenerator) (s : GenState) :
    unvisited g s < stdFuel g := by
  have h1 : unvisited g s ≤ (valueNames g).toFinset.card :=
    Finset.card_le_card Finset.sdiff_subset
  have h2 : (valueNames g).toFinset.card ≤ (valueNames g).length :=
    (valueNames g).toFinset_card_le
  have h3 : (valueNames g).length = g.parsed.structTypes.length := by simp [valueNames]
  simp only [stdFuel]
  omega

theorem genChildren_mono (g : CodeGenerator) (recur : structType → String → GenState → GenRes)
    (hr : ∀ (st : structType) (k : String) (s s2 : GenState),
        recur st k s = .done s2 → s.processed ⊆ s2.processed) :
    ∀ (key2 : String) (fs : List structField) (s s2 : GenState),
      genChildren g recur key2 fs s = .done s2 → s.processed ⊆ s2.processed := by
  intro key2 fs
  induction fs with
  | nil =>
    intro s s2 h
    simp only [genChildren] at h
    injection h with h
    subst h
    exact fun x hx => hx
  | cons f fs ih =>
    intro s s2 h
    simp only [genChildren] at h
    cases hc : customStructStr g (childStr f) with
    | none =>
      rw [hc] at h
      dsimp only at h
      exact ih s s2 h
    | some child =>
      rw [hc] at h
      dsimp only at h
      cases hrec : recur child (key2 ++ jsonName f) s with
      | done s3 =>
        rw [hrec] at h
        dsimp only at h
        exact fun x hx => ih s3 s2 h (hr child _ s s3 hrec hx)
      | fail s3 e =>
        rw [hrec] at h
        dsimp only at h
        simp at h
      | nofuel =>
        rw [hrec] at h
        dsimp only at h
        simp at h

theorem generate_mono (g : CodeGenerator) :
    ∀ (n : Nat) (st : structType) (key : String) (s s2 : GenState),
      generate g n st key s = .done s2 → s.processed ⊆ s2.processed := by
  intro n
  induction n with
  | zero => intro st key s s2 h; simp [generate] at h
  | succ n ih =>
    intro st key s s2 h
    simp only [generate] at h
    by_cases hmem : st.name ∈ s.processed
    · rw [if_pos hmem] at h
      injection h with h
      subst h
      exact fun x hx => hx
    · rw [if_neg hmem] at h
      cases h1 : generateIsSet g st key s.buf with
      | mk b e1 =>
        rw [h1] at h
        cases e1 with
        | some e => simp at h
        | none =>
          dsimp only at h
          cases h2 : generateReset g st key b with
          | mk b2 e2 =>
            rw [h2] at h
            cases e2 with
            | some e => simp at h
            | none =>
              dsimp only at h
              cases h3 : generateValidation g st key b2 with
              | mk b3 e3 =>
                rw [h3] at h
                cases e3 with
                | some e => simp at h
                | none =>
                  dsimp only at h
                  have hmono := genChildren_mono g (generate g n)
                    (fun st2 k s3 s4 h4 => ih st2 k s3 s4 h4)
                    (if key = "" then key else key ++ ".") st.fields
                    ⟨b3, st.name :: s.processed⟩ s2 h
                  exact fun x hx => hmono (List.mem_cons_of_mem _ hx)

theorem genChildren_suff (g : CodeGenerator) (recur : structType → String → GenState → GenRes)
    (m : Nat)
    (hrm : ∀ (st : structType) (k : String) (s s2 : GenState),
        recur st k s = .done s2 → s.processed ⊆ s2.processed)
    (hrs : ∀ (st : structType) (k : String) (s : GenState),
        st.name ∈ valueNames g → unvisited g s < m → recur st k s ≠ .nofuel) :
    ∀ (key2 : String) (fs : List structField) (s : GenState),
      unvisited g s < m → genChildren g recur key2 fs s ≠ .nofuel := by
  intro key2 fs
  induction fs with
  | nil => intro s hu; simp [genChildren]
  | cons f fs ih =>
    intro s hu
    simp only [genChildren]
    cases hc : customStructStr g (childStr f) with
    | none => exact ih s hu
    | some child =>
      dsimp only
      cases hrec : recur child (key2 ++ jsonName f) s with
      | done s3 =>
        dsimp only
        have hle : unvisited g s3 ≤ unvisited g s :=
          unvisited_le_of_subset g (hrm child _ s s3 hrec)
        exact ih s3 (lt_of_le_of_lt hle hu)
      | fail s3 e => simp
      | nofuel =>
        exact absurd hrec (hrs child _ s (child_name_mem g (childStr f) child hc) hu)

theorem generate_suff (g : CodeGenerator) :
    ∀ (n : Nat) (st : structType) (key : String) (s : GenState),
      st.name ∈ valueNames g → unvisited g s < n → generate g n st key s ≠ .nofuel := by
  intro n
  induction n with
  | zero => intro st key s hv hu; exact absurd hu (Nat.not_lt_zero _)
  | succ n ih =>
    intro st key s hv hu
    simp only [generate]
    by_cases hmem : st.name ∈ s.processed
    · simp [if_pos hmem]
    · rw [if_neg hmem]
      cases h1 : generateIsSet g st key s.buf with
      | mk b e1 =>
        cases e1 with
        | some e => simp
        | none =>
          dsimp only
          cases h2 : generateReset g st key b with
          | mk b2 e2 =>
            cases e2 with
            | some e => simp
            | none =>
              dsimp only
              cases h3 : generateValidation g st key b2 with
              | mk b3 e3 =>
                cases e3 with
                | some e => simp
                | none =>
                  dsimp only
                  apply genChildren_suff g (generate g n) n
                    (fun st2 k s3 s4 h4 => generate_mono g n st2 k s3 s4 h4)
                    (fun st2 k s3 hv2 hu2 => ih st2 k s3 hv2 hu2)
                  have hdec : unvisited g (⟨b3, st.name :: s.processed⟩ : GenState) < unvisited g s :=
                    unvisited_insert_lt g s b3 st.name hv hmem
                  omega

/-- C1: the recursive generate step processes a type name at most once —
re-encountering a name already in the visited set returns immediately
with the state (buffer included) unchanged, emitting nothing — and
generation terminates on every schema graph: with fuel exceeding the
number of unprocessed schema type names the recursion never exhausts
fuel, and in particular the fixed bound `stdFuel` suffices for a full
run over any graph, shared references and cycles included. -/
theorem generate_visits_once_and_terminates :
    (∀ (g : CodeGenerator) (n : Nat) (st : structType) (key : String) (s : GenState),
        st.name ∈ s.processed → generate g (n + 1) st key s = .done s)
    ∧ (∀ (g : CodeGenerator) (n : Nat) (st : structType) (key : String) (s : GenState),
        st.name ∈ valueNames g → unvisited g s < n → generate g n st key s ≠ .nofuel)
    ∧ (∀ (g : CodeGenerator) (roots : List structType) (s : GenState),
        (∀ r ∈ roots, r.name ∈ valueNames g) → runRoots g (stdFuel g) roots s ≠ .nofuel) := by
  refine ⟨?_, ?_, ?_⟩
  · intro g n st key s hmem
    simp [generate, if_pos hmem]
  · intro g n st key s hv hu
    exact generate_suff g n st key s hv hu
  · intro g roots
    induction roots with
    | nil => intro s h; simp [runRoots]
    | cons r rs ih =>
      intro s h
      simp only [runRoots]
      cases hg : generate g (stdFuel g) r "" s with
      | done s2 => exact ih s2 (fun r2 hm => h r2 (List.mem_cons_of_mem _ hm))
      | fail s2 e => simp
      | nofuel =>
        exact absurd hg (generate_suff g (stdFuel g) r "" s
          (h r (List.mem_cons_self _ _)) (unvisited_lt_stdFuel g s))

set_option maxRecDepth 40000 in
/-- Witness for C1 on the cyclic two-node schema. -/
theorem generate_visits_once_and_terminates_inst :
    (stCycA.name ∈ (⟨"", ["a"]⟩ : GenState).processed
      ∧ generate gCyc 1 stCycA "" ⟨"", ["a"]⟩ = .done ⟨"", ["a"]⟩)
    ∧ (stCycA.name ∈ valueNames gCyc ∧ unvisited gCyc ⟨"", []⟩ < 3
      ∧ generate gCyc 3 stCycA "" ⟨"", []⟩ ≠ .nofuel)
    ∧ ((∀ r ∈ gCyc.rootObjs, r.name ∈ valueNames gCyc)
      ∧ runRoots gCyc (stdFuel gCyc) gCyc.rootObjs ⟨"", []⟩ ≠ .nofuel) :=
  ⟨⟨by decide, generate_visits_once_and_terminates.1 gCyc 0 stCycA "" ⟨"", ["a"]⟩ (by decide)⟩,
   ⟨by decide, by decide,
    generate_visits_once_and_terminates.2.1 gCyc 3 stCycA "" ⟨"", []⟩ (by decide) (by decide)⟩,
   ⟨by decide,
    generate_visits_once_and_terminates.2.2 gCyc gCyc.rootObjs ⟨"", []⟩ (by decide)⟩⟩

end generator
